import Mathlib

/-!
Shallow embedding of the wordlesolver Predictor engine (src/analytics.py and
src/data.py).  Python dicts are modelled as insertion-ordered association
lists; Python sets of positions as no-duplicate lists (membership is the only
set operation the source performs on them, apart from iterations whose result
is order-independent).  Machine arithmetic is exact here: all ranks are small
integers, and the only floating-point expression in the source,
`round(h ± bonus*rank/10)`, is exactly representable for the magnitudes the
program produces, so it is modelled as banker's rounding of an exact rational
with denominator 10.
-/

namespace Wordle

/-- Errors raised by `Predictor.calibrate` (src/analytics.py lines 19-24 and 90-102):
`EndGameError` when the round counter exceeds 6, `Victory` on an all-correct
response, `ValueError` on malformed feedback or an unknown guess. -/
inductive CalErr where
  | endGame : CalErr
  | victory : CalErr
  | valueError : CalErr
  deriving DecidableEq, Repr

/-- Error raised by `Predictor.__init__` when `max()` is applied to an empty
sequence of ranks (src/analytics.py line 33). -/
inductive InitErr where
  | emptySequence : InitErr
  deriving DecidableEq, Repr

/-- Error raised by `predict_wordle` when `statistics.mean` is applied to an
empty sequence (src/analytics.py line 44). -/
inductive PredErr where
  | statisticsError : PredErr
  deriving DecidableEq, Repr

/-- The `Predictor` object state (src/analytics.py lines 29-40). -/
structure PState where
  wordbank : List (String × Int)
  round : Nat
  highestRank : Int
  outputSize : Nat
  previousResult : String
  targetHasRepeats : Bool
  wrong : List (Char × List Nat)
  misplaced : List (Char × List Nat)
  correct : List (Char × List Nat)
  unique : List Char
  deriving DecidableEq, Repr

/-- Key membership in a Python dict modelled as an association list. -/
def dictContains (d : List (Char × List Nat)) (k : Char) : Bool :=
  d.any (fun p => p.1 == k)

/-- `d[k]` lookup. -/
def dictFind (d : List (Char × List Nat)) (k : Char) : Option (List Nat) :=
  (d.find? (fun p => p.1 == k)).map Prod.snd

/-- `set.add` on a position set modelled as a no-duplicate list. -/
def setAdd (l : List Nat) (i : Nat) : List Nat :=
  if i ∈ l then l else l ++ [i]

/-- `defaultdict(set)` update `d[k].add(i)`: extends the existing entry, or
appends a new key at the end (Python dicts preserve insertion order). -/
def dictAdd (d : List (Char × List Nat)) (k : Char) (i : Nat) : List (Char × List Nat) :=
  if dictContains d k then
    d.map (fun p => if p.1 == k then (p.1, setAdd p.2 i) else p)
  else d ++ [(k, [i])]

/-- `del d[k]` (a no-op when the key is absent; the source guards its
deletions with membership tests, so the semantics agree). -/
def dictErase (d : List (Char × List Nat)) (k : Char) : List (Char × List Nat) :=
  d.filter (fun p => p.1 != k)

/-- `set.add` on the set of unique letters. -/
def charSetAdd (l : List Char) (c : Char) : List Char :=
  if c ∈ l then l else l ++ [c]

/-- Python `round(n / 10)` for an integer `n`: round half to even.  For the
integer magnitudes this program produces, the float expression
`h ± bonus*rank/10` is computed exactly at halfway points, so banker's
rounding of the exact rational `n/10` is the precise semantics. -/
def pyRound10 (n : Int) : Int :=
  let q := Int.fdiv n 10
  let r := Int.fmod n 10
  if r < 5 then q
  else if 5 < r then q + 1
  else if q % 2 = 0 then q else q + 1

/-- One step of the `for position, state in enumerate(game_response)` loop of
`_parse_game_response` (src/analytics.py lines 104-129). -/
def parseStep (s : PState) (position : Nat) (state : Char) (guessChars : List Char) : PState :=
  let letter := guessChars.getD position ' '
  if state == 'w' then
    if dictContains s.correct letter then
      { s with unique := charSetAdd s.unique letter }
    else if dictContains s.misplaced letter then s
    else { s with wrong := dictAdd s.wrong letter position }
  else if state == 'c' then
    { s with
      wrong := dictErase s.wrong letter
      misplaced := dictErase s.misplaced letter
      correct := dictAdd s.correct letter position }
  else if state == 'm' then
    { s with misplaced := dictAdd s.misplaced letter position }
  else s

/-- The enumerate loop, with the running position made explicit. -/
def parseLoop (guessChars : List Char) : PState → Nat → List Char → PState
  | s, _, [] => s
  | s, i, st :: rest => parseLoop guessChars (parseStep s i st guessChars) (i + 1) rest

/-- `_parse_game_response(guess, game_response)`. -/
def parseGameResponse (s : PState) (guess response : String) : PState :=
  parseLoop guess.toList s 0 response.toList

/-- `_predict_if_target_has_repeating_letters` (src/analytics.py lines
131-138): true iff some letter has more than one confirmed position.  Note
that `calibrate` (line 64) calls this and discards the returned value. -/
def predictIfTargetHasRepeatingLetters (s : PState) : Bool :=
  s.correct.any (fun p => p.2.length > 1)

/-- `len(word) != len(set(word))` — the word has a repeated letter. -/
def hasRepeats (w : String) : Bool :=
  w.toList.dedup.length != w.toList.length

/-- `has_repeating_letters_that_should_be_unique` (lines 187-188). -/
def hasRepeatingUnique (s : PState) (w : String) : Bool :=
  s.unique.any (fun L => w.toList.count L > 1)

/-- `has_wrong_letters` (lines 190-191): the word shares a letter with the
key set of `_wrong_letters`, at any position. -/
def hasWrongLetters (s : PState) (w : String) : Bool :=
  s.wrong.any (fun p => p.1 ∈ w.toList)

/-- The positional pattern of `recompile_correct_letters_regex` (lines
193-200): five wildcards, overwritten in dict insertion order. -/
def correctMask (correct : List (Char × List Nat)) : List (Option Char) :=
  correct.foldl (fun pat p => p.2.foldl (fun q i => q.set i (some p.1)) pat)
    (List.replicate 5 none)

/-- `has_all_correct_letters`: the anchored five-character regex matches
exactly the five-letter words that agree with the mask at every position. -/
def matchesCorrectMask (correct : List (Char × List Nat)) (w : String) : Bool :=
  w.toList.length == 5 &&
    (List.range 5).all (fun i =>
      match (correctMask correct).getD i none with
      | none => true
      | some L => w.toList.getD i ' ' == L)

/-- `has_any_misplaced_letters` (lines 207-226): for five-letter words the
alternation regex matches iff some recorded misplaced letter sits at one of
its recorded positions in the word. -/
def hasAnyMisplaced (s : PState) (w : String) : Bool :=
  s.misplaced.any (fun p => p.2.any (fun i => w.toList.getD i ' ' == p.1 && i < w.toList.length))

/-- `should_keep_word_for_the_next_round` (lines 142-174). -/
def shouldKeep (s : PState) (guess : String) (w : String) : Bool :=
  if w == guess then false
  else if s.targetHasRepeats && ! hasRepeats w then false
  else if hasRepeatingUnique s w then false
  else if ! s.wrong.isEmpty && hasWrongLetters s w then false
  else if ! s.correct.isEmpty && ! matchesCorrectMask s.correct w then false
  else if ! s.misplaced.isEmpty && hasAnyMisplaced s w then false
  else true

/-- `_reduce_wordbank` (lines 140-232), applied after the response is parsed. -/
def reduceWordbank (s : PState) (guess : String) : List (String × Int) :=
  s.wordbank.filter (fun p => shouldKeep s guess p.1)

/-- `promote_words_with_correct_letters` (lines 236-252).  The misplaced part
of the bonus counts letter occurrences, and the stored `_highest_rank` (the
maximum recomputed at the end of the previous calibrate) is the reference. -/
def promoteRank (s : PState) (w : String) (R : Int) : Int :=
  let correctPart : Nat := w.toList.enum.countP (fun p =>
    match dictFind s.correct p.2 with
    | some idxs => decide (p.1 ∈ idxs)
    | none => false)
  let misplacedPart : Nat := w.toList.countP (fun L => dictContains s.misplaced L)
  let bonus : Int := (correctPart : Int) + (misplacedPart : Int)
  if bonus == 0 then R
  else if hasRepeats w && ! w.toList.any (fun L => dictContains s.misplaced L) then
    pyRound10 (10 * s.highestRank - bonus * R)
  else
    pyRound10 (10 * s.highestRank + bonus * R)

/-- Stable insertion into a rank-descending list: equal ranks keep their
original relative order, exactly like Python's stable `sorted(..., reverse=True)`. -/
def insertDesc (x : String × Int) : List (String × Int) → List (String × Int)
  | [] => [x]
  | y :: ys => if y.2 > x.2 then y :: insertDesc x ys else x :: y :: ys

/-- `_sort_words_by_highest_rank_first` (lines 257-264): stable sort by rank
descending. -/
def sortDesc (l : List (String × Int)) : List (String × Int) :=
  l.foldr insertDesc []

/-- `max(values or [0])` (line 268). -/
def maxOr0 : List Int → Int
  | [] => 0
  | x :: xs => xs.foldl max x

/-- `_screen_inputs` (lines 90-102): round-limit check first, then the
victory check, then feedback-alphabet, feedback-length and guess-membership
validation. -/
def screenInputs (s : PState) (guess response : String) : Except CalErr Unit :=
  if s.round > 6 then .error .endGame
  else if response == "ccccc" then .error .victory
  else if ! response.toList.all (fun c => c == 'w' || c == 'm' || c == 'c') then
    .error .valueError
  else if response.length != 5 then .error .valueError
  else if ! s.wordbank.any (fun p => p.1 == guess) then .error .valueError
  else .ok ()

/-- `calibrate` (lines 61-69): screen, parse, predict-repeats (whose result
the source discards, leaving `_target_word_has_repeating_letters` untouched),
reduce, promote, sort, refresh. -/
def calibrate (s : PState) (guess response : String) : Except CalErr PState :=
  match screenInputs s guess response with
  | .error e => .error e
  | .ok _ =>
    let s1 := parseGameResponse s guess response
    let bank1 := reduceWordbank s1 guess
    let bank2 := bank1.map (fun p => (p.1, promoteRank s1 p.1 p.2))
    let bank3 := sortDesc bank2
    .ok { s1 with
      wordbank := bank3
      round := s1.round + 1
      highestRank := maxOr0 (bank3.map Prod.snd)
      previousResult := response }

/-- `int(mean(ranks))`: exact for the magnitudes the program produces. -/
def intMean (l : List Int) : Int :=
  (l.foldl (fun a b => a + b) 0).tdiv (l.length : Int)

/-- `predict_wordle` (lines 42-59).  The in-place `random.shuffle` is taken
as a parameter; it permutes the filtered top-50 list before truncation.  On
an empty wordbank the first branch fails in `mean([])`. -/
def predictWordle (shuffle : List String → List String) (s : PState) :
    Except PredErr (List String) :=
  if s.round == 1 || s.previousResult == "wwwww" then
    match s.wordbank with
    | [] => .error .statisticsError
    | _ =>
      let cutoff := intMean (s.wordbank.map Prod.snd)
      let top50 := ((s.wordbank.filter
        (fun p => ! hasRepeats p.1 && cutoff ≤ p.2)).take 50).map Prod.fst
      let shuffled := shuffle top50
      .ok (shuffled.take (min s.outputSize shuffled.length))
  else
    .ok ((s.wordbank.map Prod.fst).take s.outputSize)

/-- `Predictor.__init__` (lines 29-40) over an already-ranked lexicon (the
repository's tests construct the engine exactly this way, mocking the rank
supplier): store the bank sorted by rank descending, then take
`max(self.wordbank.values())`, which fails on an empty lexicon. -/
def mkPredictor (lexicon : List (String × Int)) (outputSize : Nat) :
    Except InitErr PState :=
  let bank := sortDesc lexicon
  match bank.map Prod.snd with
  | [] => .error .emptySequence
  | r :: rs =>
    .ok { wordbank := bank
          round := 1
          highestRank := rs.foldl max r
          outputSize := outputSize
          previousResult := ""
          targetHasRepeats := false
          wrong := []
          misplaced := []
          correct := []
          unique := [] }

/-- A sequence of calibrate calls, stopping at the first raised signal. -/
def runCalibrations (s : PState) : List (String × String) → Except CalErr PState
  | [] => .ok s
  | (g, r) :: rest =>
    match calibrate s g r with
    | .error e => .error e
    | .ok s1 => runCalibrations s1 rest

/-- The state a successful `calibrate` produces, written as a function of the
inputs (used to reason about `calibrate`'s `Except` plumbing). -/
def calibResult (s : PState) (guess response : String) : PState :=
  let s1 := parseGameResponse s guess response
  let bank3 := sortDesc ((reduceWordbank s1 guess).map
    (fun p => (p.1, promoteRank s1 p.1 p.2)))
  { s1 with
    wordbank := bank3
    round := s1.round + 1
    highestRank := maxOr0 (bank3.map Prod.snd)
    previousResult := response }

/-- Extract the success value of an `Except`, with an explicit fallback. -/
def okOr {ε α : Type} (e : Except ε α) (d : α) : α :=
  match e with
  | .ok a => a
  | .error _ => d

/-- A throwaway state used only as an `okOr` fallback. -/
def emptyPState : PState :=
  { wordbank := []
    round := 1
    highestRank := 0
    outputSize := 3
    previousResult := ""
    targetHasRepeats := false
    wrong := []
    misplaced := []
    correct := []
    unique := [] }

/-! Concrete sessions used by the claim theorems, witnesses and
counterexamples below. -/

/-- The vocabulary of the spec's concrete scenario in section 8. -/
def c8Lexicon : List (String × Int) :=
  [("cares", 4017), ("sades", 4045), ("hares", 3834), ("harpy", 1947)]

def c8Init : PState := okOr (mkPredictor c8Lexicon 3) emptyPState

def c8After : PState := okOr (calibrate c8Init "harpy" "cccww") emptyPState

def c1Init : PState := okOr (mkPredictor [("saves", 3), ("soles", 2)] 3) emptyPState

def c1After : PState := okOr (calibrate c1Init "saves" "cwwcc") emptyPState

def c2Init : PState := okOr (mkPredictor [("cares", 2), ("offal", 1)] 3) emptyPState

def c2After : PState := okOr (calibrate c2Init "cares" "mmmmm") emptyPState

def c3Init : PState :=
  okOr (mkPredictor [("aaaaa", 6), ("bbbbb", 5), ("ccccc", 4),
                     ("ddddd", 3), ("eeeee", 2), ("fffff", 1)] 3) emptyPState

/-- Six all-wrong rounds with pairwise letter-disjoint guesses: each guess is
still in the shrinking wordbank when it is played. -/
def c3Calls : List (String × String) :=
  [("aaaaa", "wwwww"), ("bbbbb", "wwwww"), ("ccccc", "wwwww"),
   ("ddddd", "wwwww"), ("eeeee", "wwwww"), ("fffff", "wwwww")]

def c3After : PState := okOr (runCalibrations c3Init c3Calls) emptyPState

def c5Init : PState := okOr (mkPredictor [("svvvv", 20), ("xssxx", 10)] 3) emptyPState

def c5After : PState := okOr (calibrate c5Init "svvvv" "mwwww") emptyPState

def c6Init : PState := okOr (mkPredictor [("bfbff", 2), ("zbzzz", 1)] 3) emptyPState

def c6After : PState := okOr (calibrate c6Init "bfbff" "wwmww") emptyPState

def c10Init : PState :=
  okOr (mkPredictor [("sbbbb", 5), ("sccss", 4), ("sddee", 3)] 3) emptyPState

def c10Mid : PState := okOr (calibrate c10Init "sbbbb" "cwwww") emptyPState

def c10After : PState := okOr (calibrate c10Mid "sccss" "cwwww") emptyPState

def c7Init : PState := okOr (mkPredictor [("harpy", 2), ("hares", 1)] 3) emptyPState

def c7After : PState := okOr (calibrate c7Init "harpy" "cccww") emptyPState

def c9After : PState :=
  okOr (runCalibrations c10Init [("sbbbb", "cwwww"), ("sccss", "cwwww")]) emptyPState

/-- The claim C5's reading of the bonus: misplaced letters counted once per
distinct letter of the word (the source counts them once per occurrence). -/
def claimBonusDistinct (correct misplaced : List (Char × List Nat)) (w : String) : Int :=
  (w.toList.enum.countP (fun p =>
    match dictFind correct p.2 with
    | some idxs => decide (p.1 ∈ idxs)
    | none => false) : Nat)
  + (w.toList.dedup.countP (fun L => dictContains misplaced L) : Nat)

/-- The source's promotion formula, abstracted over the constraint state and
the stored reference rank: the bonus adds one per position holding a
confirmed-correct letter and one per occurrence of a letter recorded
misplaced; zero bonus leaves the rank; a repeated-letter word containing no
misplaced letter gets `round(H - bonus*R/10)`, every other bonused word gets
`round(H + bonus*R/10)`. -/
def promoSpecRank (correct misplaced : List (Char × List Nat)) (H : Int)
    (w : String) (R : Int) : Int :=
  let correctPart : Nat := w.toList.enum.countP (fun p =>
    match dictFind correct p.2 with
    | some idxs => decide (p.1 ∈ idxs)
    | none => false)
  let misplacedPart : Nat := w.toList.countP (fun L => dictContains misplaced L)
  let bonus : Int := (correctPart : Int) + (misplacedPart : Int)
  if bonus == 0 then R
  else if hasRepeats w && ! w.toList.any (fun L => dictContains misplaced L) then
    pyRound10 (10 * H - bonus * R)
  else
    pyRound10 (10 * H + bonus * R)

/-- Decidable form of "each position is confirmed for at most one letter". -/
def correctConsistent (correct : List (Char × List Nat)) : Bool :=
  correct.all (fun p => correct.all (fun q =>
    p.2.all (fun i => ! decide (i ∈ q.2) || p.1 == q.1)))

/-- Decidable form of "every confirmed position is within the five-letter
board". -/
def correctBounded (correct : List (Char × List Nat)) : Bool :=
  correct.all (fun p => p.2.all (fun i => decide (i < 5)))

/-! Supporting lemmas. -/

theorem mem_insertDesc {a x : String × Int} {l : List (String × Int)} :
    a ∈ insertDesc x l ↔ a = x ∨ a ∈ l := by
  induction l with
  | nil => simp [insertDesc]
  | cons y ys ih =>
    unfold insertDesc
    split
    · rw [List.mem_cons, ih, List.mem_cons]
      tauto
    · simp only [List.mem_cons]

theorem mem_sortDesc {a : String × Int} {l : List (String × Int)} :
    a ∈ sortDesc l ↔ a ∈ l := by
  induction l with
  | nil => simp [sortDesc]
  | cons y ys ih =>
    rw [show sortDesc (y :: ys) = insertDesc y (sortDesc ys) from rfl,
      mem_insertDesc, ih, List.mem_cons]

theorem parseStep_wordbank (s : PState) (i : Nat) (st : Char) (gc : List Char) :
    (parseStep s i st gc).wordbank = s.wordbank := by
  simp only [parseStep]
  split_ifs <;> rfl

theorem parseStep_highestRank (s : PState) (i : Nat) (st : Char) (gc : List Char) :
    (parseStep s i st gc).highestRank = s.highestRank := by
  simp only [parseStep]
  split_ifs <;> rfl

theorem parseStep_round (s : PState) (i : Nat) (st : Char) (gc : List Char) :
    (parseStep s i st gc).round = s.round := by
  simp only [parseStep]
  split_ifs <;> rfl

theorem parseLoop_wordbank (gc : List Char) (s : PState) (k : Nat) (cs : List Char) :
    (parseLoop gc s k cs).wordbank = s.wordbank := by
  induction cs generalizing s k with
  | nil => rfl
  | cons c cs ih => rw [parseLoop, ih, parseStep_wordbank]

theorem parseLoop_highestRank (gc : List Char) (s : PState) (k : Nat) (cs : List Char) :
    (parseLoop gc s k cs).highestRank = s.highestRank := by
  induction cs generalizing s k with
  | nil => rfl
  | cons c cs ih => rw [parseLoop, ih, parseStep_highestRank]

theorem parse_wordbank (s : PState) (g r : String) :
    (parseGameResponse s g r).wordbank = s.wordbank :=
  parseLoop_wordbank g.toList s 0 r.toList

theorem parse_highestRank (s : PState) (g r : String) :
    (parseGameResponse s g r).highestRank = s.highestRank :=
  parseLoop_highestRank g.toList s 0 r.toList

theorem calibrate_ok_eq {s s' : PState} {g r : String}
    (h : calibrate s g r = .ok s') : s' = calibResult s g r := by
  unfold calibrate at h
  cases hscr : screenInputs s g r with
  | error e =>
    rw [hscr] at h
    exact Except.noConfusion h
  | ok u =>
    rw [hscr] at h
    exact (Except.ok.inj h).symm

theorem calibResult_wrong (s : PState) (g r : String) :
    (calibResult s g r).wrong = (parseGameResponse s g r).wrong := rfl

theorem calibResult_misplaced (s : PState) (g r : String) :
    (calibResult s g r).misplaced = (parseGameResponse s g r).misplaced := rfl

theorem calibResult_correct (s : PState) (g r : String) :
    (calibResult s g r).correct = (parseGameResponse s g r).correct := rfl

theorem calibResult_unique (s : PState) (g r : String) :
    (calibResult s g r).unique = (parseGameResponse s g r).unique := rfl

theorem list_isEmpty_false {α : Type} {l : List α} (h : l ≠ []) :
    l.isEmpty = false := by
  cases l with
  | nil => exact absurd rfl h
  | cons x xs => rfl

theorem shouldKeep_spec {s : PState} {g w : String} (h : shouldKeep s g w = true) :
    w ≠ g ∧ hasRepeatingUnique s w = false ∧
    (s.wrong ≠ [] → hasWrongLetters s w = false) ∧
    (s.correct ≠ [] → matchesCorrectMask s.correct w = true) ∧
    (s.misplaced ≠ [] → hasAnyMisplaced s w = false) := by
  unfold shouldKeep at h
  split_ifs at h with h1 h2 h3 h4 h5 h6
  refine ⟨?_, ?_, ?_, ?_, ?_⟩
  · intro he
    exact h1 (by simp [he])
  · exact Bool.not_eq_true _ ▸ (by simpa using h3)
  · intro hne
    rw [list_isEmpty_false hne] at h4
    simpa using h4
  · intro hne
    rw [list_isEmpty_false hne] at h5
    simpa using h5
  · intro hne
    rw [list_isEmpty_false hne] at h6
    simpa using h6

theorem mem_calibrate_bank {s s' : PState} {g r w : String} {R : Int}
    (h : calibrate s g r = .ok s') (hw : (w, R) ∈ s'.wordbank) :
    ∃ R0 : Int, (w, R0) ∈ s.wordbank ∧
      shouldKeep (parseGameResponse s g r) g w = true ∧
      R = promoteRank (parseGameResponse s g r) w R0 := by
  rw [calibrate_ok_eq h] at hw
  have hw2 : (w, R) ∈ sortDesc ((reduceWordbank (parseGameResponse s g r) g).map
      (fun p => (p.1, promoteRank (parseGameResponse s g r) p.1 p.2))) := hw
  rw [mem_sortDesc, List.mem_map] at hw2
  obtain ⟨p0, hp0, hfp⟩ := hw2
  rw [reduceWordbank, List.mem_filter] at hp0
  obtain ⟨hmem, hkeep⟩ := hp0
  have h1 : p0.1 = w := congrArg Prod.fst hfp
  have h2 : promoteRank (parseGameResponse s g r) p0.1 p0.2 = R := congrArg Prod.snd hfp
  refine ⟨p0.2, ?_, ?_, ?_⟩
  · rw [parse_wordbank] at hmem
    have : (w, p0.2) = p0 := by
      rw [← h1]
    rw [this]
    exact hmem
  · rw [← h1]
    exact hkeep
  · rw [← h2, h1]

/-! Claim theorems. -/

/-- C1 (code bug): after `calibrate("saves", "cwwcc")` the letter `s` has the
two confirmed positions 0 and 4, and `_predict_if_target_has_repeating_letters`
computes `true`, yet the engine's `_target_word_has_repeating_letters` flag is
still `false`: `calibrate` discards the predicate's return value and the flag
is never assigned after construction. -/
theorem C1_flag_never_assigned :
    calibrate c1Init "saves" "cwwcc" = .ok c1After ∧
    dictFind c1After.correct 's' = some [0, 4] ∧
    predictIfTargetHasRepeatingLetters c1After = true ∧
    c1After.targetHasRepeats = false :=
  ⟨rfl, rfl, rfl, rfl⟩

/-- C2 counterexample: after `calibrate("cares", "mmmmm")` the letter `s` is
recorded misplaced, yet the surviving candidate "offal" does not contain `s`
at all — the engine never checks that misplaced letters occur in surviving
words (the second misplaced-letter rule of the claim fails). -/
theorem C2_counterexample :
    calibrate c2Init "cares" "mmmmm" = .ok c2After ∧
    c2After.wordbank = [("offal", 2)] ∧
    ('s', [4]) ∈ c2After.misplaced ∧
    "offal".toList.count 's' = 0 :=
  ⟨rfl, rfl, by decide, rfl⟩

/-- C3 counterexample: after six all-wrong rounds the round counter is 7, and
a `calibrate` call whose feedback is all-correct signals the loss condition,
not Victory — the round-limit check precedes the victory check. -/
theorem C3_counterexample :
    runCalibrations c3Init c3Calls = .ok c3After ∧
    c3After.round = 7 ∧
    calibrate c3After "zzzzz" "ccccc" = .error .endGame :=
  ⟨rfl, rfl, rfl⟩

/-- C4 counterexample: constructing the engine from an empty lexicon fails
(`max()` over the empty sequence of ranks), contradicting the claim that
construction succeeds with an empty candidate store. -/
theorem C4_counterexample :
    mkPredictor ([] : List (String × Int)) 3 = .error .emptySequence :=
  rfl

/-- C5 counterexample: from the vocabulary {svvvv:20, xssxx:10},
`calibrate("svvvv", "mwwww")` records `s` as misplaced and leaves "xssxx"
(rank 10) as the sole survivor.  The code promotes it to
`round(10*20 + 2*10)/10 = 22`, counting the misplaced letter `s` once per
occurrence (bonus 2).  The claim's distinct-letter bonus is 1, which would
give rank 21 with the stored reference 20 — or rank 11 if the reference were
recomputed from the post-elimination store (maximum 10).  Neither matches. -/
theorem C5_counterexample :
    calibrate c5Init "svvvv" "mwwww" = .ok c5After ∧
    c5After.wordbank = [("xssxx", 22)] ∧
    claimBonusDistinct c5After.correct c5After.misplaced "xssxx" = 1 ∧
    pyRound10 (10 * 20 + 1 * 10) = 21 ∧
    pyRound10 (10 * 10 + 1 * 10) = 11 ∧
    (22 : Int) ≠ 21 ∧ (22 : Int) ≠ 11 :=
  ⟨rfl, rfl, rfl, rfl, rfl, by decide, by decide⟩

/-- C6 counterexample: `calibrate("bfbff", "wwmww")` leaves `b` with the
single wrong position 0 while also recording `b` misplaced at position 2.
The lexicon word "zbzzz" places `b` only at position 1 — not at the wrong
position, not at the misplaced position — and contains no other constrained
letter, so the claim says it may survive; the engine nevertheless eliminates
it (the store is empty), because any word containing a wrong-letter key is
dropped regardless of position. -/
theorem C6_counterexample :
    calibrate c6Init "bfbff" "wwmww" = .ok c6After ∧
    ("zbzzz", 1) ∈ c6Init.wordbank ∧
    c6After.wrong = [('b', [0]), ('f', [1, 3, 4])] ∧
    c6After.misplaced = [('b', [2])] ∧
    "zbzzz".toList.getD 1 ' ' = 'b' ∧
    "zbzzz".toList.getD 0 ' ' ≠ 'b' ∧
    "zbzzz".toList.getD 2 ' ' ≠ 'b' ∧
    c6After.wordbank = [] :=
  ⟨rfl, by decide, rfl, rfl, rfl, by decide, by decide, rfl⟩

/-- C3 (amended): in every active round (round at most 6), a `calibrate`
call whose feedback is "ccccc" signals Victory regardless of the guess —
the victory check precedes even the alphabet, length and vocabulary
validation.  (When the round counter exceeds 6 the loss check fires first;
see the counterexample.) -/
theorem C3_victory_in_active_rounds (s : PState) (g : String) (h : s.round ≤ 6) :
    calibrate s g "ccccc" = .error .victory := by
  unfold calibrate screenInputs
  rw [if_neg (by omega), if_pos (by rfl)]

/-- Witness for C3: a concrete round-1 state, with a guess that is not even
in the vocabulary. -/
theorem C3_victory_in_active_rounds_witness :
    c2Init.round ≤ 6 ∧ calibrate c2Init "zzzzz" "ccccc" = .error .victory :=
  ⟨by decide, C3_victory_in_active_rounds c2Init "zzzzz" (by decide)⟩

/-- C4 (amended): when the candidate store is empty in a deterministic round
(round other than 1, previous feedback not all-wrong), `predict_wordle`
returns the empty list without failing.  Construction from an empty lexicon,
however, fails — see the counterexample — and the exploration branch would
fail on `mean` of an empty store. -/
theorem C4_predict_on_empty_store (shuffle : List String → List String)
    (s : PState) (h0 : s.wordbank = []) (h1 : s.round ≠ 1)
    (h2 : s.previousResult ≠ "wwwww") :
    predictWordle shuffle s = .ok [] := by
  unfold predictWordle
  rw [if_neg (by simp [h1, h2]), h0]
  simp

/-- Witness for C4: the store emptied by the C6 session, in round 2 with
previous feedback "wwmww". -/
theorem C4_predict_on_empty_store_witness :
    c6After.wordbank = [] ∧ c6After.round ≠ 1 ∧ c6After.previousResult ≠ "wwwww" ∧
    predictWordle id c6After = .ok [] :=
  ⟨rfl, by decide, by decide,
    C4_predict_on_empty_store id c6After rfl (by decide) (by decide)⟩

/-- C2 (amended): every candidate surviving a successful `calibrate`
satisfies the first misplaced-letter rule — it does not carry a recorded
misplaced letter at its recorded position.  (The second rule of the claim,
presence of every misplaced letter somewhere in the word, is not enforced by
the engine; see the counterexample.) -/
theorem C2_no_misplaced_letter_at_recorded_position
    (s s' : PState) (g r : String) (h : calibrate s g r = .ok s')
    (w : String) (R : Int) (hw : (w, R) ∈ s'.wordbank)
    (L : Char) (idxs : List Nat) (hL : (L, idxs) ∈ s'.misplaced)
    (i : Nat) (hi : i ∈ idxs) (hlen : i < w.toList.length) :
    w.toList.getD i ' ' ≠ L := by
  obtain ⟨R0, hmem, hkeep, hR⟩ := mem_calibrate_bank h hw
  have hmis : s'.misplaced = (parseGameResponse s g r).misplaced := by
    rw [calibrate_ok_eq h]
    exact calibResult_misplaced s g r
  rw [hmis] at hL
  have hne : (parseGameResponse s g r).misplaced ≠ [] := List.ne_nil_of_mem hL
  have hfalse := (shouldKeep_spec hkeep).2.2.2.2 hne
  unfold hasAnyMisplaced at hfalse
  rw [List.any_eq_false] at hfalse
  have h2 := hfalse (L, idxs) hL
  simp only [Bool.not_eq_true, List.any_eq_false] at h2
  have h3 := h2 i hi
  intro he
  have h4 : (w.toList.getD i ' ' == L && decide (i < w.toList.length)) = true := by
    simp only [he, beq_self_eq_true, Bool.true_and, decide_eq_true_eq]
    exact hlen
  rw [h4] at h3
  exact Bool.noConfusion h3

/-- Witness for C2: in the concrete session, the survivor "offal" does not
put the misplaced letter `a` at its recorded position 1. -/
theorem C2_no_misplaced_letter_witness :
    calibrate c2Init "cares" "mmmmm" = .ok c2After ∧
    ("offal", 2) ∈ c2After.wordbank ∧ ('a', [1]) ∈ c2After.misplaced ∧
    (1 : Nat) ∈ [1] ∧ 1 < "offal".toList.length ∧
    "offal".toList.getD 1 ' ' ≠ 'a' :=
  ⟨rfl, by decide, by decide, by decide, by decide,
    C2_no_misplaced_letter_at_recorded_position c2Init c2After "cares" "mmmmm" rfl
      "offal" 2 (by decide) 'a' [1] (by decide) 1 (by decide) (by decide)⟩

/-- C6 (amended): a letter present in `wrong_letters` excludes every word
containing it, at any position — its recorded wrong positions are never
consulted, and this exclusion applies even when the letter also carries
misplaced evidence (see the counterexample).  In particular a letter marked
wrong with no correct or misplaced evidence never appears in a surviving
candidate; only a later `correct` code removes a letter from `wrong_letters`. -/
theorem C6_wrong_letter_excluded_everywhere
    (s s' : PState) (g r : String) (h : calibrate s g r = .ok s')
    (w : String) (R : Int) (hw : (w, R) ∈ s'.wordbank)
    (L : Char) (idxs : List Nat) (hL : (L, idxs) ∈ s'.wrong) :
    L ∉ w.toList := by
  obtain ⟨R0, hmem, hkeep, hR⟩ := mem_calibrate_bank h hw
  have hwr : s'.wrong = (parseGameResponse s g r).wrong := by
    rw [calibrate_ok_eq h]
    exact calibResult_wrong s g r
  rw [hwr] at hL
  have hne : (parseGameResponse s g r).wrong ≠ [] := List.ne_nil_of_mem hL
  have hfalse := (shouldKeep_spec hkeep).2.2.1 hne
  unfold hasWrongLetters at hfalse
  rw [List.any_eq_false] at hfalse
  have h2 := hfalse (L, idxs) hL
  simpa using h2

/-- Witness for C6: after marking `b` wrong, the survivor "sccss" contains
no `b`. -/
theorem C6_wrong_letter_excluded_witness :
    calibrate c10Init "sbbbb" "cwwww" = .ok c10Mid ∧
    ("sccss", 5) ∈ c10Mid.wordbank ∧ ('b', [1, 2, 3, 4]) ∈ c10Mid.wrong ∧
    'b' ∉ "sccss".toList :=
  ⟨rfl, by decide, by decide,
    C6_wrong_letter_excluded_everywhere c10Init c10Mid "sbbbb" "cwwww" rfl
      "sccss" 5 (by decide) 'b' [1, 2, 3, 4] (by decide)⟩

/-- The guessed word never survives its own calibration. -/
theorem calibrate_guess_removed {s s' : PState} {g r : String}
    (h : calibrate s g r = .ok s') (R : Int) : (g, R) ∉ s'.wordbank := by
  intro hw
  obtain ⟨R0, _, hkeep, _⟩ := mem_calibrate_bank h hw
  exact (shouldKeep_spec hkeep).1 rfl

/-- Words in the store after a run of calibrations all come from the initial
store (the pipeline only filters and re-ranks). -/
theorem run_words_sub {w : String} {R : Int} :
    ∀ (calls : List (String × String)) (s s' : PState),
      runCalibrations s calls = .ok s' → (w, R) ∈ s'.wordbank →
      ∃ R0 : Int, (w, R0) ∈ s.wordbank := by
  intro calls
  induction calls with
  | nil =>
    intro s s' h hw
    have := Except.ok.inj h
    subst this
    exact ⟨R, hw⟩
  | cons c rest ih =>
    intro s s' h hw
    obtain ⟨g0, r0⟩ := c
    rw [runCalibrations] at h
    cases hc : calibrate s g0 r0 with
    | error e =>
      rw [hc] at h
      exact Except.noConfusion h
    | ok s1 =>
      rw [hc] at h
      obtain ⟨R1, hmem1⟩ := ih s1 s' h hw
      obtain ⟨R0, hmem0, _, _⟩ := mem_calibrate_bank hc hmem1
      exact ⟨R0, hmem0⟩

/-- C9 (confirmed): along any successfully completed sequence of calibrate
calls, no guessed word — at any rank — is a member of the final candidate
store: each guess is removed by its own calibration and elimination never
re-adds words. -/
theorem C9_submitted_guesses_stay_excluded
    (s : PState) (calls : List (String × String)) (s' : PState)
    (h : runCalibrations s calls = .ok s')
    (g r : String) (hmem : (g, r) ∈ calls) (R : Int) :
    (g, R) ∉ s'.wordbank := by
  revert h hmem
  induction calls generalizing s with
  | nil =>
    intro h hmem
    exact absurd hmem (List.not_mem_nil _)
  | cons c rest ih =>
    intro h hmem
    obtain ⟨g0, r0⟩ := c
    rw [runCalibrations] at h
    cases hc : calibrate s g0 r0 with
    | error e =>
      rw [hc] at h
      exact Except.noConfusion h
    | ok s1 =>
      rw [hc] at h
      rcases List.mem_cons.mp hmem with heq | htail
      · cases heq
        intro hw
        obtain ⟨R1, hmem1⟩ := run_words_sub rest s1 s' h hw
        exact calibrate_guess_removed hc R1 hmem1
      · exact ih s1 h htail

/-- Witness for C9: after the two-round session, the first guess "sbbbb" is
not in the final store at its original rank. -/
theorem C9_submitted_guesses_witness :
    runCalibrations c10Init [("sbbbb", "cwwww"), ("sccss", "cwwww")] = .ok c9After ∧
    ("sbbbb", "cwwww") ∈ [("sbbbb", "cwwww"), ("sccss", "cwwww")] ∧
    ("sbbbb", (5 : Int)) ∉ c9After.wordbank :=
  ⟨rfl, by decide,
    C9_submitted_guesses_stay_excluded c10Init
      [("sbbbb", "cwwww"), ("sccss", "cwwww")] c9After rfl
      "sbbbb" "cwwww" (by decide) 5⟩

/-- `promoteRank` reads exactly the correct/misplaced dictionaries and the
stored reference rank of its state. -/
theorem promoteRank_eq_spec (s : PState) (w : String) (R : Int) :
    promoteRank s w R = promoSpecRank s.correct s.misplaced s.highestRank w R := rfl

/-- C5 (amended): every rank in the store after a successful `calibrate`
comes from a surviving pre-round entry via the promotion formula in which
the misplaced part of the bonus counts letter occurrences (not distinct
letters — see the counterexample), and the reference `highest_rank` is the
stored value from the end of the previous calibrate (the construction-time
maximum for the first round), not a value recomputed in this round before
promotion. -/
theorem C5_promotion_uses_stored_reference
    (s s' : PState) (g r : String) (h : calibrate s g r = .ok s')
    (w : String) (R' : Int) (hw : (w, R') ∈ s'.wordbank) :
    ∃ R0 : Int, (w, R0) ∈ s.wordbank ∧
      R' = promoSpecRank (parseGameResponse s g r).correct
        (parseGameResponse s g r).misplaced s.highestRank w R0 := by
  obtain ⟨R0, hmem, hkeep, hR⟩ := mem_calibrate_bank h hw
  refine ⟨R0, hmem, ?_⟩
  rw [hR, promoteRank_eq_spec, parse_highestRank]

/-- Witness for C5: the concrete C8 session, where "hares" with rank 3834
gets bonus 3 and lands at `round(4045 + 3*3834/10) = 5195`, 4045 being the
construction-time maximum. -/
theorem C5_promotion_witness :
    calibrate c8Init "harpy" "cccww" = .ok c8After ∧
    ("hares", (5195 : Int)) ∈ c8After.wordbank ∧
    ∃ R0 : Int, ("hares", R0) ∈ c8Init.wordbank ∧
      (5195 : Int) = promoSpecRank (parseGameResponse c8Init "harpy" "cccww").correct
        (parseGameResponse c8Init "harpy" "cccww").misplaced c8Init.highestRank
        "hares" R0 :=
  ⟨rfl, by decide,
    C5_promotion_uses_stored_reference c8Init c8After "harpy" "cccww" rfl
      "hares" 5195 (by decide)⟩

theorem innerFold_length (idxs : List Nat) (pat : List (Option Char)) (L0 : Char) :
    (idxs.foldl (fun q i => q.set i (some L0)) pat).length = pat.length := by
  induction idxs generalizing pat with
  | nil => rfl
  | cons j js ih => rw [List.foldl_cons, ih, List.length_set]

theorem innerFold_get_not_mem (idxs : List Nat) (pat : List (Option Char)) (L0 : Char)
    (i : Nat) (hi : i ∉ idxs) :
    (idxs.foldl (fun q j => q.set j (some L0)) pat)[i]? = pat[i]? := by
  induction idxs generalizing pat with
  | nil => rfl
  | cons j js ih =>
    rw [List.foldl_cons, ih _ (fun hm => hi (List.mem_cons_of_mem _ hm))]
    refine List.getElem?_set_ne (fun hm => hi ?_)
    rw [← hm]
    exact List.mem_cons_self _ _

theorem innerFold_get_mem (idxs : List Nat) (pat : List (Option Char)) (L0 : Char)
    (i : Nat) (hi : i ∈ idxs) (hlt : i < pat.length) :
    (idxs.foldl (fun q j => q.set j (some L0)) pat)[i]? = some (some L0) := by
  induction idxs generalizing pat with
  | nil => exact absurd hi (List.not_mem_nil _)
  | cons j js ih =>
    rw [List.foldl_cons]
    by_cases hmem : i ∈ js
    · exact ih (pat.set j (some L0)) hmem (by rw [List.length_set]; exact hlt)
    · have hij : i = j := by
        rcases List.mem_cons.mp hi with hh | hh
        · exact hh
        · exact absurd hh hmem
      subst hij
      rw [innerFold_get_not_mem js _ _ _ hmem]
      exact List.getElem?_set_self hlt

theorem outerFold_get_no_writer (entries : List (Char × List Nat))
    (pat : List (Option Char)) (i : Nat) (h : ∀ p ∈ entries, i ∉ p.2) :
    (entries.foldl (fun pat p => p.2.foldl (fun q j => q.set j (some p.1)) pat) pat)[i]?
      = pat[i]? := by
  induction entries generalizing pat with
  | nil => rfl
  | cons e rest ih =>
    rw [List.foldl_cons, ih _ (fun p hp => h p (List.mem_cons_of_mem _ hp))]
    exact innerFold_get_not_mem e.2 pat e.1 i (h e (List.mem_cons_self _ _))

theorem outerFold_get_writer (entries : List (Char × List Nat)) (L : Char) (i : Nat) :
    ∀ (pat : List (Option Char)),
      (∃ idxs, (L, idxs) ∈ entries ∧ i ∈ idxs) →
      (∀ p ∈ entries, i ∈ p.2 → p.1 = L) →
      i < pat.length →
      (entries.foldl (fun pat p => p.2.foldl (fun q j => q.set j (some p.1)) pat) pat)[i]?
        = some (some L) := by
  induction entries with
  | nil =>
    intro pat hex
    obtain ⟨idxs, hm, _⟩ := hex
    exact absurd hm (List.not_mem_nil _)
  | cons e rest ih =>
    intro pat hex hagree hlt
    rw [List.foldl_cons]
    by_cases hrest : ∃ p ∈ rest, i ∈ p.2
    · obtain ⟨p, hp, hip⟩ := hrest
      have hpL : p.1 = L := hagree p (List.mem_cons_of_mem _ hp) hip
      refine ih _ ⟨p.2, ?_, hip⟩
        (fun q hq hiq => hagree q (List.mem_cons_of_mem _ hq) hiq)
        (by rw [innerFold_length]; exact hlt)
      rw [← hpL]
      exact hp
    · push_neg at hrest
      rw [outerFold_get_no_writer rest _ i hrest]
      obtain ⟨idxs, hm, hii⟩ := hex
      rcases List.mem_cons.mp hm with he | hr
      · have h1 : e.1 = L := by rw [← he]
        have h2 : i ∈ e.2 := by
          rw [← he]
          exact hii
        rw [innerFold_get_mem e.2 pat e.1 i h2 hlt, h1]
      · exact absurd hii (hrest (L, idxs) hr)

theorem correctMask_getElem (correct : List (Char × List Nat)) (L : Char)
    (idxs : List Nat) (i : Nat) (hmem : (L, idxs) ∈ correct) (hi : i ∈ idxs)
    (hlt : i < 5) (hcons : correctConsistent correct = true) :
    (correctMask correct)[i]? = some (some L) := by
  apply outerFold_get_writer correct L i (List.replicate 5 none) ⟨idxs, hmem, hi⟩
  · intro p hp hip
    unfold correctConsistent at hcons
    rw [List.all_eq_true] at hcons
    have h1 := hcons p hp
    rw [List.all_eq_true] at h1
    have h2 := h1 (L, idxs) hmem
    rw [List.all_eq_true] at h2
    have h3 := h2 i hip
    simp only [Bool.or_eq_true, Bool.not_eq_true', decide_eq_false_iff_not,
      beq_iff_eq] at h3
    rcases h3 with h3 | h3
    · exact absurd hi h3
    · exact h3
  · simpa using hlt

/-- C7 (confirmed): after a successful `calibrate` — under the run-time
invariants that each position is confirmed for at most one letter and all
confirmed positions lie on the five-letter board — every surviving candidate
carries, at every confirmed position, exactly the confirmed letter; positions
absent from the mask are left unconstrained by this rule. -/
theorem C7_confirmed_positions_retained
    (s s' : PState) (g r : String) (h : calibrate s g r = .ok s')
    (hcons : correctConsistent s'.correct = true)
    (hbound : correctBounded s'.correct = true)
    (w : String) (R : Int) (hw : (w, R) ∈ s'.wordbank)
    (L : Char) (idxs : List Nat) (i : Nat)
    (hL : (L, idxs) ∈ s'.correct) (hi : i ∈ idxs) :
    w.toList.getD i ' ' = L := by
  obtain ⟨R0, hmem, hkeep, hR⟩ := mem_calibrate_bank h hw
  have hcor : s'.correct = (parseGameResponse s g r).correct := by
    rw [calibrate_ok_eq h]
    exact calibResult_correct s g r
  rw [hcor] at hL hcons hbound
  have hne : (parseGameResponse s g r).correct ≠ [] := List.ne_nil_of_mem hL
  have hmask := (shouldKeep_spec hkeep).2.2.2.1 hne
  unfold matchesCorrectMask at hmask
  rw [Bool.and_eq_true] at hmask
  obtain ⟨hlen5, hall⟩ := hmask
  have hlt : i < 5 := by
    unfold correctBounded at hbound
    rw [List.all_eq_true] at hbound
    have h1 := hbound (L, idxs) hL
    rw [List.all_eq_true] at h1
    simpa using h1 i hi
  have hmaskEq := correctMask_getElem (parseGameResponse s g r).correct L idxs i
    hL hi hlt hcons
  rw [List.all_eq_true] at hall
  have h5 := hall i (List.mem_range.mpr hlt)
  have hgd : (correctMask ((parseGameResponse s g r).correct)).getD i none = some L := by
    rw [List.getD_eq_getElem?_getD, hmaskEq]
    rfl
  rw [hgd] at h5
  simpa using h5

/-- Witness for C7: in the harpy/hares session the survivor "hares" has `h`
at confirmed position 0. -/
theorem C7_confirmed_positions_witness :
    calibrate c7Init "harpy" "cccww" = .ok c7After ∧
    correctConsistent c7After.correct = true ∧
    correctBounded c7After.correct = true ∧
    ("hares", (2 : Int)) ∈ c7After.wordbank ∧
    ('h', [0]) ∈ c7After.correct ∧ (0 : Nat) ∈ [0] ∧
    "hares".toList.getD 0 ' ' = 'h' :=
  ⟨rfl, rfl, rfl, by decide, by decide, by decide,
    C7_confirmed_positions_retained c7Init c7After "harpy" "cccww" rfl rfl rfl
      "hares" 2 (by decide) 'h' [0] 0 (by decide) (by decide)⟩

/-- C8 (confirmed): with vocabulary {cares:4017, sades:4045, hares:3834,
harpy:1947}, `calibrate("harpy", "cccww")` leaves "hares" alone in the store
(promoted to rank 5195), and the next `predict_wordle` call — which takes the
deterministic branch, so the shuffle is irrelevant — returns the list
["hares"], whose first element is "hares". -/
theorem C8_hares_ranked_first :
    mkPredictor c8Lexicon 3 = .ok c8Init ∧
    calibrate c8Init "harpy" "cccww" = .ok c8After ∧
    c8After.wordbank = [("hares", 5195)] ∧
    ∀ shuffle : List String → List String,
      predictWordle shuffle c8After = .ok ["hares"] :=
  ⟨rfl, rfl, rfl, fun _ => rfl⟩

theorem dictContains_dictAdd_mono {d : List (Char × List Nat)} {k : Char}
    {i : Nat} {c : Char} (h : dictContains d c = true) :
    dictContains (dictAdd d k i) c = true := by
  unfold dictAdd
  split_ifs with hk
  · unfold dictContains at h ⊢
    rw [List.any_map]
    have hfun : ((fun p : Char × List Nat => p.1 == c) ∘
        (fun p : Char × List Nat => if p.1 == k then (p.1, setAdd p.2 i) else p))
        = (fun p : Char × List Nat => p.1 == c) := by
      funext p
      by_cases hp : (p.1 == k) = true
      · simp [Function.comp, hp]
      · simp [Function.comp, hp]
    rw [hfun]
    exact h
  · unfold dictContains at h ⊢
    rw [List.any_append, h]
    rfl

theorem parseStep_correct_contains {s : PState} {i : Nat} {st : Char}
    {gc : List Char} {c : Char} (h : dictContains s.correct c = true) :
    dictContains (parseStep s i st gc).correct c = true := by
  simp only [parseStep]
  split_ifs <;> first | exact h | exact dictContains_dictAdd_mono h

theorem mem_charSetAdd_of_mem {l : List Char} {x c : Char} (h : c ∈ l) :
    c ∈ charSetAdd l x := by
  unfold charSetAdd
  split_ifs
  · exact h
  · exact List.mem_append_left _ h

theorem mem_charSetAdd_self (l : List Char) (x : Char) : x ∈ charSetAdd l x := by
  unfold charSetAdd
  split_ifs with h
  · exact h
  · exact List.mem_append_right _ (by simp)

theorem parseStep_unique_mem {s : PState} {i : Nat} {st : Char}
    {gc : List Char} {c : Char} (h : c ∈ s.unique) :
    c ∈ (parseStep s i st gc).unique := by
  simp only [parseStep]
  split_ifs <;> first | exact h | exact mem_charSetAdd_of_mem h

theorem parseLoop_unique_mem (gc : List Char) (c : Char) :
    ∀ (cs : List Char) (s : PState) (k : Nat),
      c ∈ s.unique → c ∈ (parseLoop gc s k cs).unique := by
  intro cs
  induction cs with
  | nil => intro s k h; exact h
  | cons st rest ih =>
    intro s k h
    rw [parseLoop]
    exact ih _ _ (parseStep_unique_mem h)

theorem parseLoop_unique_of_w (gc : List Char) (L : Char) :
    ∀ (cs : List Char) (j k : Nat) (s : PState),
      cs[j]? = some 'w' → gc.getD (k + j) ' ' = L →
      dictContains s.correct L = true →
      L ∈ (parseLoop gc s k cs).unique := by
  intro cs
  induction cs with
  | nil =>
    intro j k s hj
    exact absurd hj (by simp)
  | cons st rest ih =>
    intro j k s hj hg hc
    cases j with
    | zero =>
      have hst : st = 'w' := by simpa using hj
      subst hst
      rw [parseLoop]
      apply parseLoop_unique_mem
      have hgk : gc.getD k ' ' = L := by simpa using hg
      simp only [parseStep, hgk, hc, beq_self_eq_true, if_pos, if_true]
      exact mem_charSetAdd_self _ _
    | succ j1 =>
      rw [parseLoop]
      apply ih j1 (k + 1)
      · simpa using hj
      · rw [show k + 1 + j1 = k + (j1 + 1) from by omega]
        exact hg
      · exact parseStep_correct_contains hc

theorem calibrate_unique_eq {s s' : PState} {g r : String}
    (h : calibrate s g r = .ok s') :
    s'.unique = (parseGameResponse s g r).unique := by
  rw [calibrate_ok_eq h]
  exact calibResult_unique s g r

theorem calibrate_unique_mem {s s' : PState} {g r : String} {L : Char}
    (h : calibrate s g r = .ok s') (hc : L ∈ s.unique) : L ∈ s'.unique := by
  rw [calibrate_unique_eq h]
  exact parseLoop_unique_mem g.toList L r.toList s 0 hc

theorem calibrate_count_le {s s' : PState} {g r : String} {L : Char}
    (h : calibrate s g r = .ok s')
    (hL : L ∈ (parseGameResponse s g r).unique) :
    ∀ (w : String) (R : Int), (w, R) ∈ s'.wordbank → w.toList.count L ≤ 1 := by
  intro w R hw
  obtain ⟨R0, hmem, hkeep, hR⟩ := mem_calibrate_bank h hw
  have hfalse := (shouldKeep_spec hkeep).2.1
  unfold hasRepeatingUnique at hfalse
  rw [List.any_eq_false] at hfalse
  have h1 := hfalse L hL
  simp only [decide_eq_true_eq] at h1
  omega

/-- C10 (confirmed): when a `wrong` code arrives for an occurrence of a
letter that already has a confirmed correct position, the letter joins the
engine's unique-letters set, and in the store after that calibrate — and
after any further successful calibrations — every candidate contains that
letter at most once. -/
theorem C10_wrong_after_correct_caps_occurrences
    (s s1 : PState) (g r : String) (h : calibrate s g r = .ok s1)
    (i : Nat) (L : Char)
    (hg : g.toList.getD i ' ' = L) (hr : r.toList[i]? = some 'w')
    (hc : dictContains s.correct L = true)
    (rest : List (String × String)) (s2 : PState)
    (h2 : runCalibrations s1 rest = .ok s2) :
    L ∈ s2.unique ∧
      ∀ (w : String) (R : Int), (w, R) ∈ s2.wordbank → w.toList.count L ≤ 1 := by
  have hL1 : L ∈ (parseGameResponse s g r).unique := by
    apply parseLoop_unique_of_w g.toList L r.toList i 0 s hr ?_ hc
    simpa using hg
  have hbase : L ∈ s1.unique ∧
      ∀ (w : String) (R : Int), (w, R) ∈ s1.wordbank → w.toList.count L ≤ 1 := by
    constructor
    · rw [calibrate_unique_eq h]
      exact hL1
    · exact calibrate_count_le h hL1
  clear h hg hr hc hL1
  revert hbase h2
  induction rest generalizing s1 with
  | nil =>
    intro h2 hbase
    have := Except.ok.inj h2
    subst this
    exact hbase
  | cons c rest ih =>
    intro h2 hbase
    obtain ⟨g0, r0⟩ := c
    rw [runCalibrations] at h2
    cases hc0 : calibrate s1 g0 r0 with
    | error e =>
      rw [hc0] at h2
      exact Except.noConfusion h2
    | ok sm =>
      rw [hc0] at h2
      refine ih sm h2 ⟨calibrate_unique_mem hc0 hbase.1, ?_⟩
      apply calibrate_count_le hc0
      exact parseLoop_unique_mem g0.toList L r0.toList s1 0 hbase.1

/-- Witness for C10: in round 2 the guess "sccss" gets a `wrong` code at
position 3 for `s`, already confirmed correct at position 0; afterwards `s`
is in the unique set and the surviving "sddee" contains a single `s`. -/
theorem C10_wrong_after_correct_witness :
    calibrate c10Mid "sccss" "cwwww" = .ok c10After ∧
    "sccss".toList.getD 3 ' ' = 's' ∧
    "cwwww".toList[3]? = some 'w' ∧
    dictContains c10Mid.correct 's' = true ∧
    runCalibrations c10After [] = .ok c10After ∧
    's' ∈ c10After.unique ∧
    (("sddee", (4 : Int)) ∈ c10After.wordbank → "sddee".toList.count 's' ≤ 1) :=
  ⟨rfl, rfl, rfl, rfl, rfl,
    (C10_wrong_after_correct_caps_occurrences c10Mid c10After "sccss" "cwwww" rfl
      3 's' rfl rfl rfl [] c10After rfl).1,
    fun hm =>
      (C10_wrong_after_correct_caps_occurrences c10Mid c10After "sccss" "cwwww" rfl
        3 's' rfl rfl rfl [] c10After rfl).2 "sddee" 4 hm⟩

end Wordle
